import Mathlib

/-! Verification of the FIFO queueing discipline in
`pkg/tcpip/link/qdisc/fifo/fifo.go` (gVisor).

The Go code has two layers:

* `discipline.WritePacket` — a pure admission-control decision executed
  entirely under the shard mutex (after an atomic read of the `closed`
  flag).  We embed it as a pure function `fifo.WritePacket` on an explicit
  discipline state.

* `queueDispatcher.dispatchLoop` — a per-shard worker interleaving with
  producers through the shard mutex.  We embed one shard plus its
  producers as a labelled transition system `fifo.Step`; each constructor
  is one atomic region of the Go code (a mutex-protected block, or a
  lock-free block that touches no shared state).  Ghost fields record the
  IncRef/DecRef events, the successful submissions in order, and the
  batches handed to the lower link's `WritePackets`.
-/

namespace fifo

/-- Constant `BatchSize` from fifo.go: the number of packets written to the lower
link endpoint during calls to `WritePackets`. -/
def BatchSize : Nat := 32

/-- A `stack.PacketBuffer` as far as this package observes it: its routing
hash (`pkt.Hash`, a `uint32` in Go, hence non-negative) and an identity
used only to distinguish packets in ghost bookkeeping. -/
structure PacketBuffer where
  id : Nat
  Hash : Nat
deriving DecidableEq, Repr, Inhabited

/-- The mutex-protected state of one `queueDispatcher` shard:
`queue` (a `stack.PacketBufferList`), `used`, and the immutable `limit`.
`used` is a Go `int`, so we model it as `Int`. -/
structure QueueDispatcher where
  queue : List PacketBuffer
  used : Int
  limit : Int
deriving DecidableEq, Repr, Inhabited

/-- The `discipline` struct: the atomically-read `closed` flag and the
shard array `dispatchers`. -/
structure Discipline where
  closed : Bool
  dispatchers : List QueueDispatcher
deriving DecidableEq, Repr, Inhabited

/-- The two `tcpip.Error` values this package can return from
`WritePacket`. -/
inductive TcpipError where
  | ErrClosedForSend
  | ErrNoBufferSpace
deriving DecidableEq, Repr

/-- Shard routing in `WritePacket`:
`qd := &d.dispatchers[int(pkt.Hash)%len(d.dispatchers)]`.
`pkt.Hash` is a `uint32`, so the Go `int` conversion is non-negative and
Go's `%` agrees with `Nat.mod`. -/
def shardIndex (d : Discipline) (pkt : PacketBuffer) : Nat :=
  pkt.Hash % d.dispatchers.length

/-- Outcome of one `WritePacket` call: the post state, the returned
error (`none` = `nil`), and the number of `pkt.IncRef()` calls the
function performed on the submitted packet. -/
structure WritePacketResult where
  disc : Discipline
  err : Option TcpipError
  incRefCount : Nat
deriving DecidableEq, Repr

/-- Function `discipline.WritePacket` from fifo.go, as a pure state transformer:

* if `closed` was stored, return `ErrClosedForSend` touching nothing;
* otherwise pick the shard by hash, and under its mutex test
  `used < limit`; on space: `IncRef`, `PushBack`, `used++`; otherwise
  return `ErrNoBufferSpace` with no mutation.

The final `newPacketWaker.Assert()` is signalling only (modelled in the
transition system by the `wakeNew` step being enabled). -/
def WritePacket (d : Discipline) (pkt : PacketBuffer) : WritePacketResult :=
  if d.closed then
    ⟨d, some .ErrClosedForSend, 0⟩
  else
    let i := shardIndex d pkt
    let qd := d.dispatchers.getD i default
    if qd.used < qd.limit then
      ⟨⟨d.closed, d.dispatchers.set i ⟨qd.queue ++ [pkt], qd.used + 1, qd.limit⟩⟩,
        none, 1⟩
    else
      ⟨d, some .ErrNoBufferSpace, 0⟩

/-! ## The dispatch loop of one shard, as a transition system -/

/-- Control location of one shard's `dispatchLoop` worker.

* `idle` — parked in `s.Fetch(true)`; the shard mutex is free.
* `draining` — at the head of the inner `for` loop, holding the mutex.
* `flushing` — between `mu.Unlock()` and `mu.Lock()` in the flush block:
  about to call `lower.WritePackets(batch)`, `batch.DecRef()`,
  `batch.Reset()`; the mutex is free.
* `terminated` — the loop has returned after the close drain. -/
inductive PC where
  | idle
  | draining
  | flushing
  | terminated
deriving DecidableEq, Repr

/-- Global state of one shard, its worker, and the discipline's `closed`
flag, plus ghost history.

Concrete fields mirror fifo.go: `limit`, `closed`, `queue`, `used`, the
worker-local `batch`, and the worker's control location `pc`.

Ghost fields (history, never read by steps):
* `submitted` — packets whose `WritePacket` succeeded on this shard, in
  order; each entry is exactly one `pkt.IncRef()` event.
* `calls` — the successive batches handed to `lower.WritePackets`; each
  flush also runs `batch.DecRef()`, so each entry's packets are each one
  `DecRef` event.
* `dropped` — packets released by the shutdown drain's `p.DecRef()`,
  in order. -/
structure Sys where
  limit : Int
  closed : Bool
  queue : List PacketBuffer
  used : Int
  pc : PC
  batch : List PacketBuffer
  submitted : List PacketBuffer
  calls : List (List PacketBuffer)
  dropped : List PacketBuffer
deriving DecidableEq, Repr

/-- One atomic step of the system: a producer's `WritePacket` critical
section, the `Close()` flag store, or one atomic region of
`dispatchLoop`.  Producer steps require the shard mutex to be free
(`pc ≠ draining`); the close drain holds the mutex throughout, so it is
one step. -/
inductive Step : Sys → Sys → Prop where
  /-- A successful `WritePacket` routed to this shard: `closed` read as
  unset, mutex acquired (worker not in its locked region), space
  available; `IncRef`, `PushBack`, `used++`.  Note this constructor fuses
  the lock-free closed-flag read (fifo.go line 137) with the
  mutex-protected enqueue (lines 141-148) into one step, i.e. it models
  the interleavings in which no `Close()` falls between the two — the
  scope of the ordering and accounting claims proved over `Step`.  The
  faithful split of the two regions is `PStep` below; it exhibits an
  interleaving (a packet enqueued after the terminal drain) that this
  fused constructor cannot produce. -/
  | submit (s : Sys) (pkt : PacketBuffer)
      (hclosed : s.closed = false)
      (hmu : s.pc ≠ .draining)
      (hspace : s.used < s.limit) :
      Step s { s with
        queue := s.queue ++ [pkt]
        used := s.used + 1
        submitted := s.submitted ++ [pkt] }
  /-- Call of `Close()`: `atomic.StoreInt32(&d.closed, qDiscClosed)` (its
  `closeWaker.Assert()` enables `wakeClose`). -/
  | closeFlag (s : Sys) :
      Step s { s with closed := true }
  /-- Case where `Fetch` returns `&qd.newPacketWaker`: the worker locks the mutex
  and enters the inner drain loop. -/
  | wakeNew (s : Sys)
      (hpc : s.pc = .idle) :
      Step s { s with pc := .draining }
  /-- Inner loop, non-flush iteration: `Front()` non-nil, `Remove`,
  `used--`, `batch.PushBack(pkt)`, and the `continue` guard
  `batch.Len() < BatchSize && qd.used != 0` holds (lengths and `used`
  read after the push and the decrement). -/
  | drainContinue (s : Sys) (pkt : PacketBuffer) (rest : List PacketBuffer)
      (hpc : s.pc = .draining)
      (hq : s.queue = pkt :: rest)
      (hlen : (s.batch ++ [pkt]).length < BatchSize)
      (hused : s.used - 1 ≠ 0) :
      Step s { s with
        queue := rest
        used := s.used - 1
        batch := s.batch ++ [pkt] }
  /-- Inner loop, flush iteration: as above but the `continue` guard
  fails, so the worker unlocks the mutex and moves to the flush block. -/
  | drainFlushStart (s : Sys) (pkt : PacketBuffer) (rest : List PacketBuffer)
      (hpc : s.pc = .draining)
      (hq : s.queue = pkt :: rest)
      (hguard : ¬((s.batch ++ [pkt]).length < BatchSize ∧ s.used - 1 ≠ 0)) :
      Step s { s with
        queue := rest
        used := s.used - 1
        batch := s.batch ++ [pkt]
        pc := .flushing }
  /-- Inner loop exit: `Front()` is nil, unlock, back to `Fetch`. -/
  | drainEmpty (s : Sys)
      (hpc : s.pc = .draining)
      (hq : s.queue = []) :
      Step s { s with pc := .idle }
  /-- The flush block: `lower.WritePackets(batch)` (recorded in `calls`),
  `batch.DecRef()`, `batch.Reset()`, relock, back to the inner loop
  head.  Touches no mutex-protected state. -/
  | flush (s : Sys)
      (hpc : s.pc = .flushing) :
      Step s { s with
        calls := s.calls ++ [s.batch]
        batch := []
        pc := .draining }
  /-- Case where `Fetch` returns `&qd.closeWaker` (assertable only after `Close()`
  stored the flag): under the mutex, pop and `DecRef` every queued
  packet, `used--` each time, `queue.DecRef()` on the now-empty list,
  unlock, and return from the loop. -/
  | wakeClose (s : Sys)
      (hpc : s.pc = .idle)
      (hclosed : s.closed = true) :
      Step s { s with
        queue := []
        used := s.used - s.queue.length
        dropped := s.dropped ++ s.queue
        pc := .terminated }

/-- The state of a freshly constructed shard (`New`): empty queue,
`used = 0`, worker parked, nothing submitted or transmitted. -/
def init (lim : Int) : Sys :=
  ⟨lim, false, [], 0, .idle, [], [], [], []⟩

/-- States reachable from a fresh shard with capacity `lim` by any
interleaving of producers, `Close`, and the worker. -/
def Reachable (lim : Int) (s : Sys) : Prop :=
  Relation.ReflTransGen Step (init lim) s

/-- The inductive invariant of one shard.  Conjuncts:
1. `used` equals the queue length;
2. `used` never exceeds `limit` (unless trivially zero, covering a
   negative `limit` parameter);
3. transmission-order equation: the packets handed to the lower link, in
   call order, followed by the in-flight batch, the still-queued packets
   and the shutdown-dropped packets, are exactly the successful
   submissions in order;
4.–7. what the worker's location implies about `batch`, `queue`,
   `closed`;
8. packets are dropped only by the terminal close drain;
9. every recorded `WritePackets` call had between 1 and `BatchSize`
   packets. -/
def Inv (s : Sys) : Prop :=
  s.used = (s.queue.length : Int)
  ∧ (s.used ≤ s.limit ∨ s.used = 0)
  ∧ s.calls.flatten ++ s.batch ++ s.queue ++ s.dropped = s.submitted
  ∧ (s.pc = .idle → s.batch = [])
  ∧ (s.pc = .draining → s.batch.length < BatchSize ∧ (s.batch = [] ∨ s.queue ≠ []))
  ∧ (s.pc = .flushing → 0 < s.batch.length ∧ s.batch.length ≤ BatchSize)
  ∧ (s.pc = .terminated → s.batch = [] ∧ s.queue = [] ∧ s.closed = true)
  ∧ (s.dropped ≠ [] → s.pc = .terminated)
  ∧ (∀ b ∈ s.calls, 0 < b.length ∧ b.length ≤ BatchSize)

/-! ## The waker switch -/

/-- A wake source as `dispatchLoop`'s `switch` can see it: one of the two
wakers the loop registered with `AddWaker`, or any other waker value. -/
inductive Waker where
  | newPacketWaker
  | closeWaker
  | otherWaker
deriving DecidableEq, Repr

/-- What `dispatchLoop` does with the waker returned by `s.Fetch(true)`. -/
inductive LoopAction where
  | handleNewPacket
  | handleClose
  | panicUnknownWaker
deriving DecidableEq, Repr

/-- The `switch w := s.Fetch(true); w` statement of `dispatchLoop`:
the two registered wakers select their handlers; the `default` branch is
`panic("unknown waker")`. -/
def dispatchSwitch : Waker → LoopAction
  | .newPacketWaker => .handleNewPacket
  | .closeWaker => .handleClose
  | .otherWaker => .panicUnknownWaker

/-- The wakers `dispatchLoop` registers on its sleeper before looping:
`s.AddWaker(&qd.newPacketWaker); s.AddWaker(&qd.closeWaker)`.  The sleep
package returns only registered wakers from `Fetch`. -/
def registeredWakers : List Waker :=
  [.newPacketWaker, .closeWaker]

/-! ## Invariant proofs -/

theorem Inv_init (lim : Int) : Inv (init lim) := by
  simp [Inv, init]

theorem Inv_step {s t : Sys} (hs : Inv s) (hstep : Step s t) : Inv t := by
  obtain ⟨h1, h2, h3, h4, h5, h6, h7, h8, h9⟩ := hs
  cases hstep with
  | submit pkt hclosed hmu hspace =>
      have hterm : s.pc ≠ .terminated := by
        intro h
        have hc := (h7 h).2.2
        rw [hclosed] at hc
        exact absurd hc (by decide)
      have hdrop : s.dropped = [] := by
        by_contra hne
        exact hterm (h8 hne)
      have h3' : s.calls.flatten ++ s.batch ++ s.queue = s.submitted := by
        simpa [hdrop] using h3
      refine ⟨?_, ?_, ?_, ?_, ?_, ?_, ?_, ?_, ?_⟩ <;> dsimp only
      · simp only [List.length_append, List.length_cons, List.length_nil]
        push_cast
        omega
      · left
        omega
      · rw [hdrop, ← h3']
        simp
      · exact h4
      · exact fun h => absurd h hmu
      · exact h6
      · exact fun h => absurd h hterm
      · exact fun h => absurd hdrop h
      · exact h9
  | closeFlag =>
      refine ⟨h1, h2, h3, h4, h5, h6, ?_, h8, h9⟩
      exact fun h => ⟨(h7 h).1, (h7 h).2.1, rfl⟩
  | wakeNew hpc =>
      have hb : s.batch = [] := h4 hpc
      refine ⟨h1, h2, h3, ?_, ?_, ?_, ?_, ?_, h9⟩ <;> dsimp only
      · exact fun h => absurd h (by decide)
      · intro _
        rw [hb]
        exact ⟨by decide, Or.inl rfl⟩
      · exact fun h => absurd h (by decide)
      · exact fun h => absurd h (by decide)
      · intro h
        have hh := h8 h
        rw [hpc] at hh
        exact absurd hh (by decide)
  | drainContinue pkt rest hpc hq hlen hused =>
      have h1' : s.used = (rest.length : Int) + 1 := by
        rw [hq] at h1
        simp only [List.length_cons, Nat.cast_add, Nat.cast_one] at h1
        omega
      have hdrop : s.dropped = [] := by
        by_contra hne
        have hh := h8 hne
        rw [hpc] at hh
        exact absurd hh (by decide)
      refine ⟨?_, ?_, ?_, ?_, ?_, ?_, ?_, ?_, ?_⟩ <;> dsimp only
      · omega
      · rcases h2 with h2 | h2
        · left
          omega
        · omega
      · rw [hq] at h3
        rw [← h3]
        simp
      · intro h
        rw [hpc] at h
        exact absurd h (by decide)
      · intro _
        refine ⟨hlen, Or.inr ?_⟩
        intro hre
        rw [hre] at h1'
        simp at h1'
        omega
      · intro h
        rw [hpc] at h
        exact absurd h (by decide)
      · intro h
        rw [hpc] at h
        exact absurd h (by decide)
      · exact fun h => absurd hdrop h
      · exact h9
  | drainFlushStart pkt rest hpc hq hguard =>
      have h1' : s.used = (rest.length : Int) + 1 := by
        rw [hq] at h1
        simp only [List.length_cons, Nat.cast_add, Nat.cast_one] at h1
        omega
      have hdrop : s.dropped = [] := by
        by_contra hne
        have hh := h8 hne
        rw [hpc] at hh
        exact absurd hh (by decide)
      have hblen : s.batch.length < BatchSize := (h5 hpc).1
      refine ⟨?_, ?_, ?_, ?_, ?_, ?_, ?_, ?_, ?_⟩ <;> dsimp only
      · omega
      · rcases h2 with h2 | h2
        · left
          omega
        · omega
      · rw [hq] at h3
        rw [← h3]
        simp
      · exact fun h => absurd h (by decide)
      · exact fun h => absurd h (by decide)
      · intro _
        constructor
        · simp
        · simp only [List.length_append, List.length_cons, List.length_nil]
          omega
      · exact fun h => absurd h (by decide)
      · exact fun h => absurd hdrop h
      · exact h9
  | drainEmpty hpc hq =>
      refine ⟨h1, h2, h3, ?_, ?_, ?_, ?_, ?_, h9⟩ <;> dsimp only
      · intro _
        rcases (h5 hpc).2 with hb | hn
        · exact hb
        · exact absurd hq hn
      · exact fun h => absurd h (by decide)
      · exact fun h => absurd h (by decide)
      · exact fun h => absurd h (by decide)
      · intro h
        have hh := h8 h
        rw [hpc] at hh
        exact absurd hh (by decide)
  | flush hpc =>
      refine ⟨h1, h2, ?_, ?_, ?_, ?_, ?_, ?_, ?_⟩ <;> dsimp only
      · rw [← h3]
        simp
      · exact fun h => absurd h (by decide)
      · intro _
        exact ⟨by decide, Or.inl rfl⟩
      · exact fun h => absurd h (by decide)
      · exact fun h => absurd h (by decide)
      · intro h
        have hh := h8 h
        rw [hpc] at hh
        exact absurd hh (by decide)
      · intro b hb
        rcases List.mem_append.1 hb with hb | hb
        · exact h9 b hb
        · have hbb : b = s.batch := by simpa using hb
          rw [hbb]
          exact h6 hpc
  | wakeClose hpc hclosed =>
      have hbatch : s.batch = [] := h4 hpc
      have hdrop : s.dropped = [] := by
        by_contra hne
        have hh := h8 hne
        rw [hpc] at hh
        exact absurd hh (by decide)
      refine ⟨?_, ?_, ?_, ?_, ?_, ?_, ?_, ?_, ?_⟩ <;> dsimp only
      · simp
        omega
      · right
        omega
      · rw [hbatch, hdrop] at h3
        simp at h3
        rw [hbatch, hdrop]
        simpa using h3
      · exact fun h => absurd h (by decide)
      · exact fun h => absurd h (by decide)
      · exact fun h => absurd h (by decide)
      · exact fun _ => ⟨hbatch, rfl, hclosed⟩
      · exact fun _ => rfl
      · exact h9

theorem Reachable_Inv {lim : Int} {s : Sys} (h : Reachable lim s) : Inv s := by
  induction h with
  | refl => exact Inv_init lim
  | tail _ hstep ih => exact Inv_step ih hstep

theorem Reachable_limit {lim : Int} {s : Sys} (h : Reachable lim s) : s.limit = lim := by
  induction h with
  | refl => rfl
  | tail _ hstep ih => cases hstep <;> simpa using ih

/-- Helper: once the worker has returned (`pc = terminated`) with the
closed flag set, no later step changes the call history or revives the
worker. -/
theorem terminated_frozen {t u : Sys} (h : Relation.ReflTransGen Step t u)
    (hpc : t.pc = .terminated) (hcl : t.closed = true) :
    u.calls = t.calls ∧ u.pc = .terminated ∧ u.closed = true := by
  induction h with
  | refl => exact ⟨rfl, hpc, hcl⟩
  | tail hab hstep ih =>
      obtain ⟨hc, hp, hcl2⟩ := ih
      cases hstep with
      | submit pkt hclosed hmu hspace =>
          rw [hcl2] at hclosed
          exact absurd hclosed (by decide)
      | closeFlag => exact ⟨hc, hp, rfl⟩
      | wakeNew hpc2 =>
          rw [hp] at hpc2
          exact absurd hpc2 (by decide)
      | drainContinue pkt rest hpc2 hq hlen hused =>
          rw [hp] at hpc2
          exact absurd hpc2 (by decide)
      | drainFlushStart pkt rest hpc2 hq hguard =>
          rw [hp] at hpc2
          exact absurd hpc2 (by decide)
      | drainEmpty hpc2 hq =>
          rw [hp] at hpc2
          exact absurd hpc2 (by decide)
      | flush hpc2 =>
          rw [hp] at hpc2
          exact absurd hpc2 (by decide)
      | wakeClose hpc2 hclosed =>
          rw [hp] at hpc2
          exact absurd hpc2 (by decide)

/-! ## Claim theorems -/

/-- C1: within one shard, the packets handed to the lower transmitter
(the concatenation of all `WritePackets` batches, in call order),
followed by the in-flight batch, the still-queued packets and the
shutdown-dropped packets, are exactly the successfully submitted packets
in submission order; in particular once the loop has terminated the
transmitted sequence is the submission sequence with only the
shutdown-discarded packets removed. -/
theorem fifo_within_shard {lim : Int} {s : Sys} (h : Reachable lim s) :
    s.calls.flatten ++ s.batch ++ s.queue ++ s.dropped = s.submitted
    ∧ (s.pc = .terminated → s.calls.flatten ++ s.dropped = s.submitted) := by
  obtain ⟨h1, h2, h3, h4, h5, h6, h7, h8, h9⟩ := Reachable_Inv h
  refine ⟨h3, ?_⟩
  intro hterm
  rw [(h7 hterm).1, (h7 hterm).2.1] at h3
  simpa using h3

/-- C3: a `WritePacket` call that routes to a shard whose `used` equals
its `limit` returns `ErrNoBufferSpace` and leaves the whole discipline
state (queues, counters) and the packet's reference count untouched. -/
theorem writePacket_full_no_mutation (d : Discipline) (pkt : PacketBuffer)
    (hclosed : d.closed = false)
    (hfull : (d.dispatchers.getD (shardIndex d pkt) default).used
      = (d.dispatchers.getD (shardIndex d pkt) default).limit) :
    WritePacket d pkt = ⟨d, some .ErrNoBufferSpace, 0⟩ := by
  have hcl2 : ¬ d.closed = true := by
    rw [hclosed]
    decide
  have hnot : ¬ (d.dispatchers.getD (shardIndex d pkt) default).used
      < (d.dispatchers.getD (shardIndex d pkt) default).limit := by omega
  unfold WritePacket
  rw [if_neg hcl2]
  simp only [if_neg hnot]

/-- C4: once the `closed` flag is observed set, `WritePacket` returns
`ErrClosedForSend` for every packet and leaves the discipline (hence
every shard's queue and counter) and the packet's reference count
untouched; the result is the same for every shard configuration, i.e. no
shard state is consulted. -/
theorem writePacket_closed_rejects (d : Discipline) (pkt : PacketBuffer)
    (hclosed : d.closed = true) :
    WritePacket d pkt = ⟨d, some .ErrClosedForSend, 0⟩ := by
  unfold WritePacket
  rw [hclosed]
  simp

/-- C5: the step in which a shard's loop observes the shutdown signal
empties the queue, releases exactly the queued packets (appending them to
the drop ledger, with the matching `used` decrements), hands nothing new
to the transmitter, and reaches the terminal location; afterwards no
sequence of steps ever extends the transmitter call history. -/
theorem close_drain {s t : Sys} (hstep : Step s t)
    (hterm : t.pc = .terminated) (hnot : s.pc ≠ .terminated) :
    t.queue = [] ∧ t.dropped = s.dropped ++ s.queue ∧ t.calls = s.calls
    ∧ t.used = s.used - s.queue.length
    ∧ ∀ u : Sys, Relation.ReflTransGen Step t u →
        u.calls = t.calls ∧ u.pc = .terminated := by
  cases hstep with
  | submit pkt hclosed hmu hspace => exact absurd hterm hnot
  | closeFlag => exact absurd hterm hnot
  | wakeNew hpc => simp at hterm
  | drainContinue pkt rest hpc hq hlen hused => exact absurd hterm hnot
  | drainFlushStart pkt rest hpc hq hguard => simp at hterm
  | drainEmpty hpc hq => simp at hterm
  | flush hpc => simp at hterm
  | wakeClose hpc hclosed =>
      refine ⟨rfl, rfl, rfl, rfl, ?_⟩
      intro u hu
      have hf := terminated_frozen hu rfl hclosed
      exact ⟨hf.1, hf.2.1⟩

/-- C6: every batch ever handed to the lower transmitter contains at most
`BatchSize` packets, and `BatchSize` is the fixed bound 32. -/
theorem batch_size_bound {lim : Int} {s : Sys} (h : Reachable lim s) :
    BatchSize = 32 ∧ ∀ b ∈ s.calls, b.length ≤ BatchSize := by
  obtain ⟨_, _, _, _, _, _, _, _, h9⟩ := Reachable_Inv h
  exact ⟨rfl, fun b hb => (h9 b hb).2⟩

/-- C7: in every reachable (lock-quiescent) state of a shard created with
non-negative capacity `lim`, the `used` counter equals the queue length
and lies between 0 and the limit; by induction over `Step`, every
operation (successful enqueue, dispatch dequeue, shutdown drain)
preserves this. -/
theorem used_tracks_queue {lim : Int} {s : Sys} (h : Reachable lim s)
    (hlim : 0 ≤ lim) :
    s.used = (s.queue.length : Int) ∧ 0 ≤ s.used ∧ s.used ≤ s.limit
    ∧ s.limit = lim := by
  obtain ⟨h1, h2, _, _, _, _, _, _, _⟩ := Reachable_Inv h
  have hl := Reachable_limit h
  refine ⟨h1, ?_, ?_, hl⟩
  · omega
  · rcases h2 with h2 | h2 <;> omega

/-- C8: the shard `WritePacket` routes to is `pkt.Hash % shardCount`,
always in bounds for a non-empty shard array; a packet with hash 0 goes
to shard 0; and a successful call appends the packet to exactly that
shard's queue. -/
theorem writePacket_shard_routing (d : Discipline) (pkt : PacketBuffer)
    (hn : 0 < d.dispatchers.length) :
    shardIndex d pkt < d.dispatchers.length
    ∧ shardIndex d pkt = pkt.Hash % d.dispatchers.length
    ∧ (pkt.Hash = 0 → shardIndex d pkt = 0)
    ∧ ((WritePacket d pkt).err = none →
        (WritePacket d pkt).disc.dispatchers
          = d.dispatchers.set (shardIndex d pkt)
              { d.dispatchers.getD (shardIndex d pkt) default with
                queue := (d.dispatchers.getD (shardIndex d pkt) default).queue
                  ++ [pkt]
                used := (d.dispatchers.getD (shardIndex d pkt) default).used
                  + 1 }) := by
  refine ⟨Nat.mod_lt _ hn, rfl, ?_, ?_⟩
  · intro h
    simp [shardIndex, h]
  · intro herr
    unfold WritePacket at herr ⊢
    by_cases hc : d.closed = true
    · rw [if_pos hc] at herr
      simp at herr
    · rw [if_neg hc] at herr ⊢
      by_cases hsp : (d.dispatchers.getD (shardIndex d pkt) default).used
          < (d.dispatchers.getD (shardIndex d pkt) default).limit
      · simp only [if_pos hsp]
      · simp only [if_neg hsp] at herr
        simp at herr

/-- C9: the dispatch loop's switch on the waker returned by `Fetch`
aborts fatally exactly on wake sources that are not among the two wakers
the loop registered; for the registered new-packet and close wakers it
never aborts. -/
theorem dispatchSwitch_unknown_waker :
    ∀ w : Waker, dispatchSwitch w = .panicUnknownWaker ↔ w ∉ registeredWakers := by
  intro w
  cases w <;> decide

/-- C10: the dispatch loop never hands an empty batch to the lower
transmitter: every recorded `WritePackets` call has a non-empty batch. -/
theorem no_empty_batches {lim : Int} {s : Sys} (h : Reachable lim s) :
    ∀ b ∈ s.calls, b ≠ [] := by
  obtain ⟨_, _, _, _, _, _, _, _, h9⟩ := Reachable_Inv h
  intro b hb hbe
  have hpos := (h9 b hb).1
  rw [hbe] at hpos
  simp at hpos

/-! ## Concrete executions used as witnesses -/

/-- A concrete packet (hash 0, so it routes to shard 0). -/
def p1 : PacketBuffer := ⟨1, 0⟩

/-- Shard after one successful submission of `p1` (capacity 4). -/
def sysA : Sys := ⟨4, false, [p1], 1, .idle, [], [p1], [], []⟩

/-- Then the worker wakes on new work. -/
def sysB : Sys := ⟨4, false, [p1], 1, .draining, [], [p1], [], []⟩

/-- Then it pops `p1` and, the queue being drained, moves to the flush
block. -/
def sysC : Sys := ⟨4, false, [], 0, .flushing, [p1], [p1], [], []⟩

/-- Then it flushes the batch `[p1]` to the transmitter. -/
def sysD : Sys := ⟨4, false, [], 0, .draining, [], [p1], [[p1]], []⟩

/-- Alternatively, from `sysA`, `Close()` stores the closed flag. -/
def sysE : Sys := ⟨4, true, [p1], 1, .idle, [], [p1], [], []⟩

/-- Then the worker wakes on the close waker and drains `p1` without
transmitting it. -/
def sysF : Sys := ⟨4, true, [], 0, .terminated, [], [p1], [], [p1]⟩

theorem step_init_A : Step (init 4) sysA :=
  Step.submit (init 4) p1 rfl (by decide) (by decide)

theorem step_A_B : Step sysA sysB :=
  Step.wakeNew sysA rfl

theorem step_B_C : Step sysB sysC :=
  Step.drainFlushStart sysB p1 [] rfl rfl (by decide)

theorem step_C_D : Step sysC sysD :=
  Step.flush sysC rfl

theorem step_A_E : Step sysA sysE :=
  Step.closeFlag sysA

theorem step_E_F : Step sysE sysF :=
  Step.wakeClose sysE rfl rfl

theorem reach_sysA : Reachable 4 sysA :=
  Relation.ReflTransGen.tail Relation.ReflTransGen.refl step_init_A

theorem reach_sysD : Reachable 4 sysD :=
  Relation.ReflTransGen.tail
    (Relation.ReflTransGen.tail
      (Relation.ReflTransGen.tail reach_sysA step_A_B)
      step_B_C)
    step_C_D

theorem reach_sysF : Reachable 4 sysF :=
  Relation.ReflTransGen.tail
    (Relation.ReflTransGen.tail reach_sysA step_A_E)
    step_E_F

/-! ## Witnesses -/

/-- Witness for C1 at the concrete state `sysD`, where `[p1]` has been
handed to the transmitter. -/
theorem fifo_within_shard_witness :
    sysD.calls.flatten ++ sysD.batch ++ sysD.queue ++ sysD.dropped = sysD.submitted
    ∧ (sysD.pc = .terminated → sysD.calls.flatten ++ sysD.dropped = sysD.submitted) :=
  fifo_within_shard reach_sysD

/-- A one-shard discipline whose only shard is full (`used = limit = 2`). -/
def dFull : Discipline := ⟨false, [⟨[], 2, 2⟩]⟩

/-- A packet with hash 0 and id 0. -/
def pkt0 : PacketBuffer := ⟨0, 0⟩

/-- Witness for C3: submitting to the full shard fails with
`ErrNoBufferSpace` and changes nothing. -/
theorem writePacket_full_no_mutation_witness :
    dFull.closed = false
    ∧ (dFull.dispatchers.getD (shardIndex dFull pkt0) default).used
        = (dFull.dispatchers.getD (shardIndex dFull pkt0) default).limit
    ∧ WritePacket dFull pkt0 = ⟨dFull, some .ErrNoBufferSpace, 0⟩ :=
  ⟨rfl, rfl, writePacket_full_no_mutation dFull pkt0 rfl rfl⟩

/-- A closed one-shard discipline with free space. -/
def dClosed : Discipline := ⟨true, [⟨[], 0, 4⟩]⟩

/-- Witness for C4: submitting to the closed discipline fails with
`ErrClosedForSend` and changes nothing. -/
theorem writePacket_closed_rejects_witness :
    dClosed.closed = true
    ∧ WritePacket dClosed pkt0 = ⟨dClosed, some .ErrClosedForSend, 0⟩ :=
  ⟨rfl, writePacket_closed_rejects dClosed pkt0 rfl⟩

/-- Witness for C5 at the concrete shutdown step from `sysE` to `sysF`. -/
theorem close_drain_witness :
    sysF.pc = .terminated ∧ sysE.pc ≠ .terminated
    ∧ (sysF.queue = [] ∧ sysF.dropped = sysE.dropped ++ sysE.queue
       ∧ sysF.calls = sysE.calls
       ∧ sysF.used = sysE.used - sysE.queue.length
       ∧ ∀ u : Sys, Relation.ReflTransGen Step sysF u →
           u.calls = sysF.calls ∧ u.pc = .terminated) :=
  ⟨rfl, by decide, close_drain step_E_F rfl (by decide)⟩

/-- Witness for C6 at the concrete state `sysD`. -/
theorem batch_size_bound_witness :
    BatchSize = 32 ∧ ∀ b ∈ sysD.calls, b.length ≤ BatchSize :=
  batch_size_bound reach_sysD

/-- Witness for C7 at the concrete state `sysA`. -/
theorem used_tracks_queue_witness :
    (0 : Int) ≤ 4
    ∧ (sysA.used = (sysA.queue.length : Int) ∧ 0 ≤ sysA.used
       ∧ sysA.used ≤ sysA.limit ∧ sysA.limit = 4) :=
  ⟨by decide, used_tracks_queue reach_sysA (by decide)⟩

/-- A three-shard discipline with room in every shard. -/
def dRoute : Discipline := ⟨false, [⟨[], 0, 4⟩, ⟨[], 1, 4⟩, ⟨[], 2, 4⟩]⟩

/-- A packet with hash 7: it must route to shard 7 % 3 = 1. -/
def pkt7 : PacketBuffer := ⟨7, 7⟩

/-- Witness for C8 at the concrete discipline `dRoute` and packet
`pkt7`. -/
theorem writePacket_shard_routing_witness :
    0 < dRoute.dispatchers.length
    ∧ (shardIndex dRoute pkt7 < dRoute.dispatchers.length
       ∧ shardIndex dRoute pkt7 = pkt7.Hash % dRoute.dispatchers.length
       ∧ (pkt7.Hash = 0 → shardIndex dRoute pkt7 = 0)
       ∧ ((WritePacket dRoute pkt7).err = none →
           (WritePacket dRoute pkt7).disc.dispatchers
             = dRoute.dispatchers.set (shardIndex dRoute pkt7)
                 { dRoute.dispatchers.getD (shardIndex dRoute pkt7) default with
                   queue := (dRoute.dispatchers.getD (shardIndex dRoute pkt7)
                     default).queue ++ [pkt7]
                   used := (dRoute.dispatchers.getD (shardIndex dRoute pkt7)
                     default).used + 1 })) :=
  ⟨by decide, writePacket_shard_routing dRoute pkt7 (by decide)⟩

/-- Witness for C10 at the concrete state `sysD`. -/
theorem no_empty_batches_witness :
    [p1] ∈ sysD.calls ∧ ([p1] : List PacketBuffer) ≠ [] :=
  ⟨by decide, no_empty_batches reach_sysD [p1] (by decide)⟩

/-! ## Faithful two-phase producers: the post-close enqueue leak

In fifo.go, `WritePacket`'s closed check (line 137, a lock-free atomic
load) and its enqueue (lines 141-148, under the shard mutex) are two
separately interleavable regions.  The system below splits the producer
into exactly those two steps, keeping every worker step of `Step`
unchanged, and exhibits the interleaving the fused `Step.submit` cannot
produce: check passes, `Close()` and the terminal drain complete, then
the enqueue still succeeds — the packet is `IncRef`ed once and no
`DecRef` site can ever run again. -/

/-- State of one shard as in `Sys`, extended with `pending`: the packets
whose producer has already passed the lock-free closed check (fifo.go
line 137) but has not yet executed the mutex-protected enqueue (lines
141-148). -/
structure PSys where
  limit : Int
  closed : Bool
  queue : List PacketBuffer
  used : Int
  pc : PC
  batch : List PacketBuffer
  pending : List PacketBuffer
  submitted : List PacketBuffer
  calls : List (List PacketBuffer)
  dropped : List PacketBuffer
deriving DecidableEq, Repr

/-- One atomic region of fifo.go with the producer's two regions kept
separate: `submitCheck` is the atomic load of `closed` alone, and
`submitEnqueue`/`submitEnqueueFull` are the mutex-protected block alone
(which in the Go code no longer consults `closed`).  All worker and
`Close` steps are as in `Step`. -/
inductive PStep : PSys → PSys → Prop where
  /-- The producer's atomic load `atomic.LoadInt32(&d.closed)` observes
  the flag unset (fifo.go line 137); the producer now heads for the
  shard mutex.  Touches no shard state. -/
  | submitCheck (s : PSys) (pkt : PacketBuffer)
      (hclosed : s.closed = false) :
      PStep s { s with pending := s.pending ++ [pkt] }
  /-- The producer's mutex region (fifo.go lines 141-148) for a packet
  whose closed check already passed, finding space: `IncRef`,
  `PushBack`, `used++`, return nil.  The region does not re-read
  `closed`. -/
  | submitEnqueue (s : PSys) (pkt : PacketBuffer)
      (hpend : pkt ∈ s.pending)
      (hmu : s.pc ≠ .draining)
      (hspace : s.used < s.limit) :
      PStep s { s with
        pending := s.pending.erase pkt
        queue := s.queue ++ [pkt]
        used := s.used + 1
        submitted := s.submitted ++ [pkt] }
  /-- The producer's mutex region finding the shard full: no mutation,
  return `ErrNoBufferSpace`. -/
  | submitEnqueueFull (s : PSys) (pkt : PacketBuffer)
      (hpend : pkt ∈ s.pending)
      (hmu : s.pc ≠ .draining)
      (hfull : ¬ s.used < s.limit) :
      PStep s { s with pending := s.pending.erase pkt }
  /-- Call of `Close()`: stores the flag (line 157). -/
  | closeFlag (s : PSys) :
      PStep s { s with closed := true }
  /-- Worker wakes on the new-packet waker, as in `Step.wakeNew`. -/
  | wakeNew (s : PSys)
      (hpc : s.pc = .idle) :
      PStep s { s with pc := .draining }
  /-- Inner loop, non-flush iteration, as in `Step.drainContinue`. -/
  | drainContinue (s : PSys) (pkt : PacketBuffer) (rest : List PacketBuffer)
      (hpc : s.pc = .draining)
      (hq : s.queue = pkt :: rest)
      (hlen : (s.batch ++ [pkt]).length < BatchSize)
      (hused : s.used - 1 ≠ 0) :
      PStep s { s with
        queue := rest
        used := s.used - 1
        batch := s.batch ++ [pkt] }
  /-- Inner loop, flush iteration, as in `Step.drainFlushStart`. -/
  | drainFlushStart (s : PSys) (pkt : PacketBuffer) (rest : List PacketBuffer)
      (hpc : s.pc = .draining)
      (hq : s.queue = pkt :: rest)
      (hguard : ¬((s.batch ++ [pkt]).length < BatchSize ∧ s.used - 1 ≠ 0)) :
      PStep s { s with
        queue := rest
        used := s.used - 1
        batch := s.batch ++ [pkt]
        pc := .flushing }
  /-- Inner loop exit on empty queue, as in `Step.drainEmpty`. -/
  | drainEmpty (s : PSys)
      (hpc : s.pc = .draining)
      (hq : s.queue = []) :
      PStep s { s with pc := .idle }
  /-- The flush block, as in `Step.flush`. -/
  | flush (s : PSys)
      (hpc : s.pc = .flushing) :
      PStep s { s with
        calls := s.calls ++ [s.batch]
        batch := []
        pc := .draining }
  /-- The terminal close drain, as in `Step.wakeClose`. -/
  | wakeClose (s : PSys)
      (hpc : s.pc = .idle)
      (hclosed : s.closed = true) :
      PStep s { s with
        queue := []
        used := s.used - s.queue.length
        dropped := s.dropped ++ s.queue
        pc := .terminated }

/-- A freshly constructed shard in the two-phase model. -/
def pInit (lim : Int) : PSys :=
  ⟨lim, false, [], 0, .idle, [], [], [], [], []⟩

/-- States reachable in the two-phase model. -/
def PReachable (lim : Int) (s : PSys) : Prop :=
  Relation.ReflTransGen PStep (pInit lim) s

/-- All `pkt.DecRef()` events performed so far: transmit releases
(`batch.DecRef()` after each `WritePackets` call) and shutdown releases
(`p.DecRef()` in the close drain) — the only two `DecRef` sites for
queued packets in fifo.go. -/
def decRefEvents (s : PSys) : List PacketBuffer :=
  s.calls.flatten ++ s.dropped

/-- All `pkt.IncRef()` events performed so far: one per successful
submission (fifo.go line 144). -/
def incRefEvents (s : PSys) : List PacketBuffer :=
  s.submitted

/-- Helper: once the worker has returned with the closed flag set, no
later step of the two-phase model ever extends the transmit-release or
shutdown-release ledgers: both `DecRef` sites live in the worker, which
is dead. -/
theorem pterminated_frozen {t u : PSys} (h : Relation.ReflTransGen PStep t u)
    (hpc : t.pc = .terminated) (hcl : t.closed = true) :
    u.calls = t.calls ∧ u.dropped = t.dropped
    ∧ u.pc = .terminated ∧ u.closed = true := by
  induction h with
  | refl => exact ⟨rfl, rfl, hpc, hcl⟩
  | tail hab hstep ih =>
      obtain ⟨hc, hd, hp, hcl2⟩ := ih
      cases hstep with
      | submitCheck pkt hclosed =>
          rw [hcl2] at hclosed
          exact absurd hclosed (by decide)
      | submitEnqueue pkt hpend hmu hspace => exact ⟨hc, hd, hp, hcl2⟩
      | submitEnqueueFull pkt hpend hmu hfull => exact ⟨hc, hd, hp, hcl2⟩
      | closeFlag => exact ⟨hc, hd, hp, rfl⟩
      | wakeNew hpc2 =>
          rw [hp] at hpc2
          exact absurd hpc2 (by decide)
      | drainContinue pkt rest hpc2 hq hlen hused =>
          rw [hp] at hpc2
          exact absurd hpc2 (by decide)
      | drainFlushStart pkt rest hpc2 hq hguard =>
          rw [hp] at hpc2
          exact absurd hpc2 (by decide)
      | drainEmpty hpc2 hq =>
          rw [hp] at hpc2
          exact absurd hpc2 (by decide)
      | flush hpc2 =>
          rw [hp] at hpc2
          exact absurd hpc2 (by decide)
      | wakeClose hpc2 hclosed =>
          rw [hp] at hpc2
          exact absurd hpc2 (by decide)

/-- Producer passes the closed check for `p1` and stalls before the
mutex. -/
def pSysA : PSys := ⟨4, false, [], 0, .idle, [], [p1], [], [], []⟩

/-- `Close()` stores the flag. -/
def pSysB : PSys := ⟨4, true, [], 0, .idle, [], [p1], [], [], []⟩

/-- The worker wakes on the close waker, drains the (empty) queue and
returns; `Close()` can now return. -/
def pSysC : PSys := ⟨4, true, [], 0, .terminated, [], [p1], [], [], []⟩

/-- The stalled producer resumes, takes the free mutex, finds space and
enqueues `p1` successfully — into a queue whose worker has exited. -/
def leakState : PSys := ⟨4, true, [p1], 1, .terminated, [], [], [p1], [], []⟩

theorem pstep_init_A : PStep (pInit 4) pSysA :=
  PStep.submitCheck (pInit 4) p1 rfl

theorem pstep_A_B : PStep pSysA pSysB :=
  PStep.closeFlag pSysA

theorem pstep_B_C : PStep pSysB pSysC :=
  PStep.wakeClose pSysB rfl rfl

theorem pstep_C_leak : PStep pSysC leakState :=
  PStep.submitEnqueue pSysC p1 (by decide) (by decide) (by decide)

theorem reach_leakState : PReachable 4 leakState :=
  Relation.ReflTransGen.tail
    (Relation.ReflTransGen.tail
      (Relation.ReflTransGen.tail
        (Relation.ReflTransGen.tail Relation.ReflTransGen.refl pstep_init_A)
        pstep_A_B)
      pstep_B_C)
    pstep_C_leak

/-- C2 fails on the code: in the two-phase model that keeps the lock-free
closed check (fifo.go line 137) and the mutex enqueue (lines 141-148) as
the separate atomic regions they are in Go, the run
check → `Close()` → terminal drain → enqueue is reachable; in its final
state the packet `p1` was submitted successfully (`IncRef`ed once), zero
`DecRef` events mention it, the worker has terminated, and no
continuation of the run ever releases it — it is acquired once and
released zero times, contradicting the claim's "never zero times". -/
theorem refcount_leak :
    PReachable 4 leakState
    ∧ (incRefEvents leakState).count p1 = 1
    ∧ (decRefEvents leakState).count p1 = 0
    ∧ leakState.pc = .terminated
    ∧ ∀ u : PSys, Relation.ReflTransGen PStep leakState u →
        (decRefEvents u).count p1 = 0 := by
  refine ⟨reach_leakState, by decide, by decide, rfl, ?_⟩
  intro u hu
  obtain ⟨hc, hd, _, _⟩ := pterminated_frozen hu rfl rfl
  simp only [decRefEvents, hc, hd]
  decide

end fifo
